import Mathlib

/-!
Verification of the persistence core of a Slack↔Zendesk relay
(`src/thread_store.py`, class `ThreadMappingStore`).

The store keeps two PostgreSQL tables:

* `thread_mappings (thread_ts TEXT PRIMARY KEY, ticket_id INTEGER, channel_id TEXT,
  created_at TIMESTAMP)` — the thread → ticket link; `ticket_id = -1` is the
  PENDING placeholder written by `claim_thread`, replaced by `update_ticket_mapping`.
* `processed_events (event_id TEXT PRIMARY KEY, processed_at TIMESTAMP)` — the
  event-deduplication ledger.

We embed the tables as lists of rows (list order models physical insertion
order; `fetchone` on an unordered `SELECT` is modelled as the first matching
row) and each method's SQL statements as pure functions on that state.
Timestamps are abstract `Nat` instants.
-/

namespace ThreadStore

/-- One row of the `thread_mappings` table. -/
structure Row where
  thread_ts : String
  ticket_id : Int
  channel_id : String
  created_at : Nat
deriving DecidableEq

/-- One row of the `processed_events` table. -/
structure EventRow where
  event_id : String
  processed_at : Nat
deriving DecidableEq

/-- The whole database owned by `ThreadMappingStore`. -/
structure DB where
  thread_mappings : List Row
  processed_events : List EventRow
deriving DecidableEq

/-- The state created by `_init_db`: both tables empty. -/
def DB.empty : DB := ⟨[], []⟩

/-- The PENDING placeholder `ticket_id` written by `claim_thread` (`-1` in the code). -/
def SENTINEL : Int := -1

/-- The staleness threshold of `claim_thread` (`timedelta(seconds=30)` in the code). -/
def STALE_SECONDS : Nat := 30

/-- Does any `thread_mappings` row exist for this `thread_ts` (the PRIMARY KEY /
`ON CONFLICT (thread_ts)` check)? -/
def hasThread (tm : List Row) (ts : String) : Bool :=
  tm.any (fun r => r.thread_ts == ts)

/-- Does any `processed_events` row exist for this `event_id`? -/
def hasEvent (pe : List EventRow) (e : String) : Bool :=
  pe.any (fun r => r.event_id == e)

/-- The WHERE clause of the stale-placeholder DELETE inside `claim_thread`:
`thread_ts = %s AND ticket_id = -1 AND created_at < now - 30 seconds`. -/
def staleMatch (ts : String) (now : Nat) (r : Row) : Bool :=
  r.thread_ts == ts && r.ticket_id == SENTINEL && decide (r.created_at < now - STALE_SECONDS)

/-- The first SQL statement of `claim_thread`: DELETE the stale PENDING row
for `thread_ts`, if any. One atomic statement. -/
def claimDeleteStmt (db : DB) (now : Nat) (ts : String) : DB :=
  { db with thread_mappings := db.thread_mappings.filter (fun r => !staleMatch ts now r) }

/-- The second SQL statement of `claim_thread`: `INSERT ... VALUES (ts, -1, ch, now)
ON CONFLICT (thread_ts) DO NOTHING RETURNING thread_ts`. Returns the new state and
whether a row came back (i.e. the insert happened). One atomic statement. -/
def claimInsertStmt (db : DB) (now : Nat) (ts ch : String) : DB × Bool :=
  if hasThread db.thread_mappings ts then (db, false)
  else ({ db with thread_mappings := db.thread_mappings ++ [⟨ts, SENTINEL, ch, now⟩] }, true)

/-- `ThreadMappingStore.claim_thread`: delete the stale placeholder, then try to
insert the PENDING placeholder; `true` iff this call's insert succeeded. -/
def claim_thread (db : DB) (now : Nat) (ts ch : String) : DB × Bool :=
  claimInsertStmt (claimDeleteStmt db now ts) now ts ch

/-- `ThreadMappingStore.claim_thread` together with its surrounding
`try/except`: when the pooled operation raises (`fault = true`, e.g. pool
exhaustion or backend unavailability) the handler logs the error and
returns `False` with no state change. -/
def claim_thread_try (db : DB) (now : Nat) (ts ch : String) (fault : Bool) : DB × Bool :=
  if fault then (db, false) else claim_thread db now ts ch

/-- `ThreadMappingStore.store_mapping`: `INSERT ... ON CONFLICT (thread_ts)
DO NOTHING RETURNING thread_ts`; `true` iff the row was inserted. -/
def store_mapping (db : DB) (now : Nat) (ts : String) (tid : Int) (ch : String) : DB × Bool :=
  if hasThread db.thread_mappings ts then (db, false)
  else ({ db with thread_mappings := db.thread_mappings ++ [⟨ts, tid, ch, now⟩] }, true)

/-- The WHERE clause of `update_ticket_mapping`:
`thread_ts = %s AND ticket_id = -1`. -/
def pendingMatch (ts : String) (r : Row) : Bool :=
  r.thread_ts == ts && r.ticket_id == SENTINEL

/-- The effect of the UPDATE of `update_ticket_mapping` on one row. -/
def updateRow (ts : String) (tid : Int) (r : Row) : Row :=
  if pendingMatch ts r then { r with ticket_id := tid } else r

/-- `ThreadMappingStore.update_ticket_mapping`: `UPDATE thread_mappings SET
ticket_id = %s WHERE thread_ts = %s AND ticket_id = -1`; returns `rowcount > 0`. -/
def update_ticket_mapping (db : DB) (ts : String) (tid : Int) : DB × Bool :=
  ({ db with thread_mappings := db.thread_mappings.map (updateRow ts tid) },
   decide (0 < db.thread_mappings.countP (pendingMatch ts)))

/-- `ThreadMappingStore.get_ticket_id`: `SELECT ticket_id FROM thread_mappings
WHERE thread_ts = %s`, `fetchone`. -/
def get_ticket_id (db : DB) (ts : String) : Option Int :=
  (db.thread_mappings.find? (fun r => r.thread_ts == ts)).map (fun r => r.ticket_id)

/-- `ThreadMappingStore.get_thread_info`: `SELECT thread_ts, channel_id FROM
thread_mappings WHERE ticket_id = %s`, `fetchone`; the dict becomes a pair. -/
def get_thread_info (db : DB) (tid : Int) : Option (String × String) :=
  (db.thread_mappings.find? (fun r => r.ticket_id == tid)).map
    (fun r => (r.thread_ts, r.channel_id))

/-- `ThreadMappingStore.is_event_processed`: `SELECT 1 FROM processed_events
WHERE event_id = %s`; `true` iff a row exists. -/
def is_event_processed (db : DB) (e : String) : Bool :=
  hasEvent db.processed_events e

/-- `ThreadMappingStore.mark_event_processed`: `INSERT INTO processed_events ...
ON CONFLICT (event_id) DO NOTHING`, then `return True` unconditionally. -/
def mark_event_processed (db : DB) (now : Nat) (e : String) : DB × Bool :=
  if hasEvent db.processed_events e then (db, true)
  else ({ db with processed_events := db.processed_events ++ [⟨e, now⟩] }, true)

/-- `ThreadMappingStore.cleanup_old_mappings`: delete `thread_mappings` rows with
`created_at < cutoff` and `processed_events` rows with `processed_at < cutoff`
(the code computes `cutoff` as `now - timedelta(days=days)`), and return the
`rowcount` of the FIRST delete only (`deleted_mappings`). -/
def cleanup_old_mappings (db : DB) (cutoff : Nat) : DB × Nat :=
  (⟨db.thread_mappings.filter (fun r => !decide (r.created_at < cutoff)),
    db.processed_events.filter (fun r => !decide (r.processed_at < cutoff))⟩,
   db.thread_mappings.length -
     (db.thread_mappings.filter (fun r => !decide (r.created_at < cutoff))).length)

/-- A mutating store operation, for stating state invariants over arbitrary
operation sequences. The returned flag/count of each method is discarded. -/
inductive Op where
  | claim (now : Nat) (ts ch : String)
  | update (ts : String) (tid : Int)
  | store (now : Nat) (ts : String) (tid : Int) (ch : String)
  | cleanup (cutoff : Nat)
deriving DecidableEq

/-- Apply one store operation to the database. -/
def applyOp (db : DB) : Op → DB
  | .claim now ts ch => (claim_thread db now ts ch).1
  | .update ts tid => (update_ticket_mapping db ts tid).1
  | .store now ts tid ch => (store_mapping db now ts tid ch).1
  | .cleanup c => (cleanup_old_mappings db c).1

/-- Apply a sequence of store operations, oldest first. -/
def applyOps (db : DB) (ops : List Op) : DB :=
  ops.foldl applyOp db

/-- One atomic SQL statement issued by some concurrent `claim_thread` caller
against a fixed `thread_ts`: its stale-DELETE or its placeholder-INSERT,
stamped with the wall-clock instant at which the backend executes it. -/
inductive CStep where
  | del (now : Nat)
  | ins (now : Nat) (ch : String)
deriving DecidableEq

/-- The instant at which an atomic claim statement executes. -/
def CStep.time : CStep → Nat
  | .del now => now
  | .ins now _ => now

/-- Is this atomic claim statement the placeholder-INSERT? -/
def CStep.isIns : CStep → Bool
  | .del _ => false
  | .ins _ _ => true

/-- Run one atomic claim statement; an INSERT also reports its caller's result. -/
def runStep (ts : String) (db : DB) : CStep → DB × Option Bool
  | .del now => (claimDeleteStmt db now ts, none)
  | .ins now ch =>
      let p := claimInsertStmt db now ts ch
      (p.1, some p.2)

/-- Run an interleaved schedule of atomic claim statements against the store,
collecting each INSERT's result (= the issuing `claim_thread` call's return). -/
def runSched (ts : String) (db : DB) : List CStep → DB × List Bool
  | [] => (db, [])
  | st :: rest =>
      match runStep ts db st with
      | (db2, none) => runSched ts db2 rest
      | (db2, some b) =>
          let p := runSched ts db2 rest
          (p.1, b :: p.2)

/-- The PRIMARY KEY invariant of `thread_mappings`: pairwise distinct `thread_ts`. -/
def UniqueKeys (tm : List Row) : Prop :=
  tm.Pairwise (fun a b => a.thread_ts ≠ b.thread_ts)

/-- The rows of `thread_mappings` holding a given `thread_ts`. -/
def tsRows (db : DB) (ts : String) : List Row :=
  db.thread_mappings.filter (fun r => r.thread_ts == ts)

theorem map_id_of_mem {α : Type} {l : List α} {f : α → α} (h : ∀ x ∈ l, f x = x) :
    l.map f = l := by
  induction l with
  | nil => rfl
  | cons a t ih =>
    simp only [List.map_cons, h a (List.mem_cons_self a t)]
    rw [ih (fun x hx => h x (List.mem_cons_of_mem a hx))]

theorem find?_append_none {α : Type} {l₁ l₂ : List α} {p : α → Bool}
    (h : ∀ x ∈ l₁, p x = false) : (l₁ ++ l₂).find? p = l₂.find? p := by
  induction l₁ with
  | nil => rfl
  | cons a t ih =>
    rw [List.cons_append, List.find?_cons_of_neg]
    · exact ih (fun x hx => h x (List.mem_cons_of_mem a hx))
    · simp [h a (List.mem_cons_self a t)]

theorem mem_key_eq {tm : List Row} (hu : UniqueKeys tm) {r x : Row}
    (hr : r ∈ tm) (hx : x ∈ tm) (hk : r.thread_ts = x.thread_ts) : r = x := by
  induction tm with
  | nil => cases hr
  | cons a t ih =>
    rcases List.pairwise_cons.mp hu with ⟨ha, ht⟩
    rcases List.mem_cons.mp hr with h1 | h1 <;> rcases List.mem_cons.mp hx with h2 | h2
    · exact h1.trans h2.symm
    · exact absurd hk (h1 ▸ ha x h2)
    · exact absurd hk.symm (h2 ▸ ha r h1)
    · exact ih ht h1 h2

theorem find?_key_of_mem {tm : List Row} (hu : UniqueKeys tm) {r : Row} {ts : String}
    (hr : r ∈ tm) (hk : r.thread_ts = ts) :
    tm.find? (fun x => x.thread_ts == ts) = some r := by
  induction tm with
  | nil => cases hr
  | cons a t ih =>
    rcases List.pairwise_cons.mp hu with ⟨ha, ht⟩
    rcases List.mem_cons.mp hr with h1 | h1
    · subst h1
      exact List.find?_cons_of_pos _ (by simp [hk])
    · rw [List.find?_cons_of_neg, ih ht h1]
      have hne : a.thread_ts ≠ r.thread_ts := ha r h1
      simp [hk ▸ hne]

theorem hasThread_false_iff {tm : List Row} {ts : String} :
    hasThread tm ts = false ↔ ∀ r ∈ tm, r.thread_ts ≠ ts := by
  simp [hasThread, List.any_eq_false]

theorem hasThread_true_of_mem {tm : List Row} {ts : String} {r : Row}
    (hr : r ∈ tm) (hk : r.thread_ts = ts) : hasThread tm ts = true :=
  List.any_of_mem hr (by simp [hk])

theorem uniqueKeys_filter {tm : List Row} (hu : UniqueKeys tm) (p : Row → Bool) :
    UniqueKeys (tm.filter p) :=
  hu.filter p

theorem uniqueKeys_append_new {tm : List Row} (hu : UniqueKeys tm) {ts : String}
    (hnew : hasThread tm ts = false) (tid : Int) (ch : String) (now : Nat) :
    UniqueKeys (tm ++ [⟨ts, tid, ch, now⟩]) := by
  rw [UniqueKeys, List.pairwise_append]
  refine ⟨hu, List.pairwise_singleton _ _, ?_⟩
  intro a ha b hb
  have hb1 : b = (⟨ts, tid, ch, now⟩ : Row) := List.mem_singleton.mp hb
  subst hb1
  exact hasThread_false_iff.mp hnew a ha

theorem updateRow_thread_ts (ts : String) (tid : Int) (r : Row) :
    (updateRow ts tid r).thread_ts = r.thread_ts := by
  unfold updateRow
  by_cases h : pendingMatch ts r <;> simp [h]

theorem uniqueKeys_map_update {tm : List Row} (hu : UniqueKeys tm) (ts : String) (tid : Int) :
    UniqueKeys (tm.map (updateRow ts tid)) := by
  rw [UniqueKeys, List.pairwise_map]
  refine hu.imp ?_
  intro a b hne
  rw [updateRow_thread_ts, updateRow_thread_ts]
  exact hne

theorem length_filter_key_le_one {tm : List Row} (hu : UniqueKeys tm) (ts : String) :
    (tm.filter (fun r => r.thread_ts == ts)).length ≤ 1 := by
  rcases hfl : tm.filter (fun r => r.thread_ts == ts) with _ | ⟨a, _ | ⟨b, l⟩⟩
  · rw [hfl]; simp
  · rw [hfl]; simp
  · exfalso
    have hpw := (uniqueKeys_filter hu (fun r => r.thread_ts == ts))
    rw [UniqueKeys, hfl] at hpw
    have hab : a.thread_ts ≠ b.thread_ts :=
      (List.pairwise_cons.mp hpw).1 b (List.mem_cons_self b l)
    have haf : a ∈ tm.filter (fun r => r.thread_ts == ts) := by
      rw [hfl]; exact List.mem_cons_self _ _
    have hbf : b ∈ tm.filter (fun r => r.thread_ts == ts) := by
      rw [hfl]; exact List.mem_cons_of_mem _ (List.mem_cons_self _ _)
    have ha2 : a.thread_ts = ts := by simpa using (List.mem_filter.mp haf).2
    have hb2 : b.thread_ts = ts := by simpa using (List.mem_filter.mp hbf).2
    exact hab (ha2.trans hb2.symm)

theorem staleMatch_false_of_other {ts : String} {now : Nat} {x : Row}
    (hne : x.thread_ts ≠ ts) : staleMatch ts now x = false := by
  simp [staleMatch, hne]

theorem claim_fresh_blocks (db : DB) (now : Nat) (ts ch : String) (r : Row)
    (hu : UniqueKeys db.thread_mappings) (hr : r ∈ db.thread_mappings)
    (hk : r.thread_ts = ts) (hp : r.ticket_id = SENTINEL)
    (hage : now - r.created_at < STALE_SECONDS) :
    claim_thread db now ts ch = (db, false) := by
  have hdel : claimDeleteStmt db now ts = db := by
    unfold claimDeleteStmt
    have hfix : db.thread_mappings.filter (fun x => !staleMatch ts now x) =
        db.thread_mappings := by
      apply List.filter_eq_self.mpr
      intro x hx
      by_cases hxk : x.thread_ts = ts
      · have hxr : r = x := mem_key_eq hu hr hx (hk.trans hxk.symm)
        subst hxr
        simp only [STALE_SECONDS] at hage
        simp [staleMatch, hk, hp, STALE_SECONDS]
        omega
      · simp [staleMatch_false_of_other hxk]
    rw [hfix]
  unfold claim_thread
  rw [hdel]
  unfold claimInsertStmt
  rw [hasThread_true_of_mem hr hk]
  simp

theorem claim_stale_reclaims (db : DB) (now : Nat) (ts ch : String) (r : Row)
    (hu : UniqueKeys db.thread_mappings) (hr : r ∈ db.thread_mappings)
    (hk : r.thread_ts = ts) (hp : r.ticket_id = SENTINEL)
    (hstale : STALE_SECONDS < now - r.created_at) :
    claim_thread db now ts ch =
      ({ db with thread_mappings :=
          db.thread_mappings.filter (fun x => !staleMatch ts now x) ++
            [⟨ts, SENTINEL, ch, now⟩] }, true) ∧
    r ∉ (claim_thread db now ts ch).1.thread_mappings ∧
    (claim_thread db now ts ch).1.thread_mappings.find? (fun x => x.thread_ts == ts) =
      some ⟨ts, SENTINEL, ch, now⟩ := by
  have hsm : staleMatch ts now r = true := by
    simp only [STALE_SECONDS] at hstale
    simp [staleMatch, hk, hp, STALE_SECONDS]
    omega
  have hnofilter : ∀ x ∈ db.thread_mappings.filter (fun y => !staleMatch ts now y),
      x.thread_ts ≠ ts := by
    intro x hx hxk
    rcases List.mem_filter.mp hx with ⟨hx1, hx2⟩
    have hxr : r = x := mem_key_eq hu hr hx1 (hk.trans hxk.symm)
    rw [← hxr, hsm] at hx2
    exact absurd hx2 (by simp)
  have hht : hasThread (db.thread_mappings.filter (fun y => !staleMatch ts now y)) ts = false :=
    hasThread_false_iff.mpr hnofilter
  have heq : claim_thread db now ts ch =
      ({ db with thread_mappings :=
          db.thread_mappings.filter (fun x => !staleMatch ts now x) ++
            [⟨ts, SENTINEL, ch, now⟩] }, true) := by
    unfold claim_thread claimDeleteStmt claimInsertStmt
    simp only [hht]
    simp
  refine ⟨heq, ?_, ?_⟩
  · rw [heq]
    simp only [List.mem_append]
    rintro (hin | hin)
    · rcases List.mem_filter.mp hin with ⟨_, hx2⟩
      rw [hsm] at hx2
      exact absurd hx2 (by simp)
    · have : r = (⟨ts, SENTINEL, ch, now⟩ : Row) := List.mem_singleton.mp hin
      have hcr : r.created_at = now := by rw [this]
      simp only [STALE_SECONDS] at hstale
      omega
  · rw [heq]
    have h1 : (db.thread_mappings.filter (fun x => !staleMatch ts now x) ++
        [(⟨ts, SENTINEL, ch, now⟩ : Row)]).find? (fun x => x.thread_ts == ts) =
        ([(⟨ts, SENTINEL, ch, now⟩ : Row)]).find? (fun x => x.thread_ts == ts) :=
      find?_append_none (fun x hx => by simp [hnofilter x hx])
    rw [h1]
    exact List.find?_cons_of_pos _ (by simp)

theorem update_noop (db : DB) (ts : String) (tid : Int)
    (h : ∀ x ∈ db.thread_mappings, pendingMatch ts x = false) :
    update_ticket_mapping db ts tid = (db, false) := by
  unfold update_ticket_mapping
  have h1 : db.thread_mappings.map (updateRow ts tid) = db.thread_mappings :=
    map_id_of_mem (fun x hx => by simp [updateRow, h x hx])
  have h2 : db.thread_mappings.countP (pendingMatch ts) = 0 :=
    List.countP_eq_zero.mpr (fun a ha => by simp [h a ha])
  rw [h1, h2]
  simp

theorem update_pending (db : DB) (ts : String) (tid : Int) (r : Row)
    (hu : UniqueKeys db.thread_mappings) (hr : r ∈ db.thread_mappings)
    (hk : r.thread_ts = ts) (hp : r.ticket_id = SENTINEL) :
    (update_ticket_mapping db ts tid).2 = true ∧
    (update_ticket_mapping db ts tid).1.thread_mappings.find? (fun x => x.thread_ts == ts) =
      some { r with ticket_id := tid } ∧
    get_ticket_id (update_ticket_mapping db ts tid).1 ts = some tid := by
  have hpm : pendingMatch ts r = true := by simp [pendingMatch, hk, hp]
  have hflag : (update_ticket_mapping db ts tid).2 = true := by
    unfold update_ticket_mapping
    simp only [decide_eq_true_eq]
    exact List.countP_pos_iff.mpr ⟨r, hr, hpm⟩
  have humap := uniqueKeys_map_update hu ts tid
  have hmem : ({ r with ticket_id := tid } : Row) ∈
      db.thread_mappings.map (updateRow ts tid) :=
    List.mem_map.mpr ⟨r, hr, by simp [updateRow, hpm]⟩
  have hfind : (update_ticket_mapping db ts tid).1.thread_mappings.find?
      (fun x => x.thread_ts == ts) = some { r with ticket_id := tid } := by
    unfold update_ticket_mapping
    exact find?_key_of_mem humap hmem hk
  refine ⟨hflag, hfind, ?_⟩
  unfold get_ticket_id
  rw [hfind]
  rfl

theorem uniqueKeys_claim (db : DB) (now : Nat) (ts ch : String)
    (hu : UniqueKeys db.thread_mappings) :
    UniqueKeys (claim_thread db now ts ch).1.thread_mappings := by
  unfold claim_thread claimDeleteStmt claimInsertStmt
  have huf : UniqueKeys (db.thread_mappings.filter (fun r => !staleMatch ts now r)) :=
    uniqueKeys_filter hu _
  by_cases h : hasThread (db.thread_mappings.filter (fun r => !staleMatch ts now r)) ts = true
  · simp only [h]
    simpa using huf
  · have h2 : hasThread (db.thread_mappings.filter (fun r => !staleMatch ts now r)) ts = false :=
      Bool.eq_false_iff.mpr h
    simp only [h2]
    simpa using uniqueKeys_append_new huf h2 SENTINEL ch now

theorem uniqueKeys_store (db : DB) (now : Nat) (ts : String) (tid : Int) (ch : String)
    (hu : UniqueKeys db.thread_mappings) :
    UniqueKeys (store_mapping db now ts tid ch).1.thread_mappings := by
  unfold store_mapping
  by_cases h : hasThread db.thread_mappings ts = true
  · simpa [h] using hu
  · have h2 : hasThread db.thread_mappings ts = false := Bool.eq_false_iff.mpr h
    simp only [h2]
    simpa using uniqueKeys_append_new hu h2 tid ch now

theorem uniqueKeys_applyOp {db : DB} (hu : UniqueKeys db.thread_mappings) (op : Op) :
    UniqueKeys (applyOp db op).thread_mappings := by
  cases op with
  | claim now ts ch => exact uniqueKeys_claim db now ts ch hu
  | update ts tid =>
    unfold applyOp update_ticket_mapping
    exact uniqueKeys_map_update hu ts tid
  | store now ts tid ch => exact uniqueKeys_store db now ts tid ch hu
  | cleanup c =>
    unfold applyOp cleanup_old_mappings
    exact uniqueKeys_filter hu _

theorem uniqueKeys_applyOps (db : DB) (hu : UniqueKeys db.thread_mappings) (ops : List Op) :
    UniqueKeys (applyOps db ops).thread_mappings := by
  induction ops generalizing db with
  | nil => exact hu
  | cons op rest ih => exact ih (applyOp db op) (uniqueKeys_applyOp hu op)

theorem committed_row_preserved (db : DB) (op : Op) (r : Row)
    (hr : r ∈ db.thread_mappings) (hc : r.ticket_id ≠ SENTINEL) :
    r ∈ (applyOp db op).thread_mappings ∨
      ∃ c, op = Op.cleanup c ∧ r.created_at < c := by
  cases op with
  | claim now ts ch =>
    left
    unfold applyOp claim_thread claimDeleteStmt claimInsertStmt
    have hrf : r ∈ db.thread_mappings.filter (fun x => !staleMatch ts now x) :=
      List.mem_filter.mpr ⟨hr, by simp [staleMatch, hc]⟩
    by_cases h : hasThread (db.thread_mappings.filter (fun x => !staleMatch ts now x)) ts = true
    · simpa [h] using hrf
    · have h2 : hasThread (db.thread_mappings.filter (fun x => !staleMatch ts now x)) ts = false :=
        Bool.eq_false_iff.mpr h
      simp [h2]
      exact Or.inl ⟨hr, by simp [staleMatch, hc]⟩
  | update ts tid =>
    left
    unfold applyOp update_ticket_mapping
    have hfr : updateRow ts tid r = r := by
      simp [updateRow, pendingMatch, hc]
    exact List.mem_map.mpr ⟨r, hr, hfr⟩
  | store now ts tid ch =>
    left
    unfold applyOp store_mapping
    by_cases h : hasThread db.thread_mappings ts = true
    · simpa [h] using hr
    · have h2 : hasThread db.thread_mappings ts = false := Bool.eq_false_iff.mpr h
      simp [h2]
      exact Or.inl hr
  | cleanup c =>
    by_cases hlt : r.created_at < c
    · exact Or.inr ⟨c, rfl, hlt⟩
    · left
      unfold applyOp cleanup_old_mappings
      exact List.mem_filter.mpr ⟨hr, by simp [hlt]⟩

theorem filter_key_filter_stale (tm : List Row) (now : Nat) (ts : String) :
    (tm.filter (fun r => !staleMatch ts now r)).filter (fun r => r.thread_ts == ts) =
      (tm.filter (fun r => r.thread_ts == ts)).filter (fun r => !staleMatch ts now r) := by
  rw [List.filter_filter, List.filter_filter]
  exact List.filter_congr (fun a _ => Bool.and_comm _ _)

theorem tsRows_nil_hasThread {db : DB} {ts : String} (h : tsRows db ts = []) :
    hasThread db.thread_mappings ts = false := by
  rw [hasThread_false_iff]
  intro r hr hk
  have hmem : r ∈ tsRows db ts := List.mem_filter.mpr ⟨hr, by simp [hk]⟩
  rw [h] at hmem
  cases hmem

theorem count_false_add_count_true (l : List Bool) :
    l.count false + l.count true = l.length := by
  induction l with
  | nil => rfl
  | cons b t ih => cases b <;> simp [List.count_cons] <;> omega

theorem runSched_length (ts : String) :
    ∀ (sched : List CStep) (db : DB),
    (runSched ts db sched).2.length = sched.countP CStep.isIns := by
  intro sched
  induction sched with
  | nil => intro db; simp [runSched]
  | cons st rest ih =>
    intro db
    cases st with
    | del now => simpa [runSched, runStep, List.countP_cons, CStep.isIns] using ih _
    | ins now ch => simp [runSched, runStep, List.countP_cons, CStep.isIns, ih _]

theorem runSched_blocked (T : Nat) (ts : String) :
    ∀ (sched : List CStep) (db : DB) (r : Row),
    (∀ st ∈ sched, st.time ≤ T + STALE_SECONDS) →
    tsRows db ts = [r] → r.ticket_id = SENTINEL → T ≤ r.created_at →
    (runSched ts db sched).2.count true = 0 := by
  intro sched
  induction sched with
  | nil => intro db r _ _ _ _; simp [runSched]
  | cons st rest ih =>
    intro db r htime hrow hp hT
    cases st with
    | del now =>
      have hnow : now ≤ T + STALE_SECONDS := htime (.del now) (List.mem_cons_self _ _)
      have hdec : decide (r.created_at < now - STALE_SECONDS) = false := by
        simp only [decide_eq_false_iff_not]
        simp only [STALE_SECONDS] at hnow ⊢
        omega
      have hkeep : tsRows (claimDeleteStmt db now ts) ts = [r] := by
        show (db.thread_mappings.filter (fun x => !staleMatch ts now x)).filter
            (fun x => x.thread_ts == ts) = [r]
        rw [filter_key_filter_stale]
        rw [show db.thread_mappings.filter (fun x => x.thread_ts == ts) = [r] from hrow]
        simp [staleMatch, hdec]
      have hrec := ih (claimDeleteStmt db now ts) r
        (fun s hs => htime s (List.mem_cons_of_mem _ hs)) hkeep hp hT
      simpa [runSched, runStep] using hrec
    | ins now ch =>
      have hrmem : r ∈ tsRows db ts := by rw [hrow]; exact List.mem_cons_self _ _
      have hht : hasThread db.thread_mappings ts = true := by
        rcases List.mem_filter.mp hrmem with ⟨h1, h2⟩
        exact List.any_of_mem h1 h2
      have hins : claimInsertStmt db now ts ch = (db, false) := by
        unfold claimInsertStmt
        rw [hht]
        simp
      have hrec := ih db r (fun s hs => htime s (List.mem_cons_of_mem _ hs)) hrow hp hT
      simpa [runSched, runStep, hins] using hrec

theorem runSched_open (T : Nat) (ts : String) :
    ∀ (sched : List CStep) (db : DB),
    (∀ st ∈ sched, T ≤ st.time ∧ st.time ≤ T + STALE_SECONDS) →
    tsRows db ts = [] →
    (runSched ts db sched).2.count true =
      if sched.countP CStep.isIns = 0 then 0 else 1 := by
  intro sched
  induction sched with
  | nil => intro db _ _; simp [runSched]
  | cons st rest ih =>
    intro db htime hrow
    cases st with
    | del now =>
      have hkeep : tsRows (claimDeleteStmt db now ts) ts = [] := by
        show (db.thread_mappings.filter (fun x => !staleMatch ts now x)).filter
            (fun x => x.thread_ts == ts) = []
        rw [filter_key_filter_stale]
        rw [show db.thread_mappings.filter (fun x => x.thread_ts == ts) = [] from hrow]
        rfl
      have hrec := ih (claimDeleteStmt db now ts)
        (fun s hs => htime s (List.mem_cons_of_mem _ hs)) hkeep
      have hcnt : ((CStep.del now) :: rest).countP CStep.isIns = rest.countP CStep.isIns := by
        simp [List.countP_cons, CStep.isIns]
      rw [hcnt]
      simpa [runSched, runStep] using hrec
    | ins now ch =>
      have hht : hasThread db.thread_mappings ts = false := tsRows_nil_hasThread hrow
      have hins : claimInsertStmt db now ts ch =
          ({ db with thread_mappings :=
              db.thread_mappings ++ [⟨ts, SENTINEL, ch, now⟩] }, true) := by
        unfold claimInsertStmt
        rw [hht]
        simp
      have hrow2 : tsRows ({ db with thread_mappings :=
          db.thread_mappings ++ [⟨ts, SENTINEL, ch, now⟩] }) ts =
          [⟨ts, SENTINEL, ch, now⟩] := by
        show (db.thread_mappings ++ [(⟨ts, SENTINEL, ch, now⟩ : Row)]).filter
            (fun x => x.thread_ts == ts) = _
        rw [List.filter_append]
        rw [show db.thread_mappings.filter (fun x => x.thread_ts == ts) = [] from hrow]
        simp
      have hT : T ≤ now := (htime (.ins now ch) (List.mem_cons_self _ _)).1
      have hblocked := runSched_blocked T ts rest
        ({ db with thread_mappings := db.thread_mappings ++ [⟨ts, SENTINEL, ch, now⟩] })
        ⟨ts, SENTINEL, ch, now⟩
        (fun s hs => (htime s (List.mem_cons_of_mem _ hs)).2) hrow2 rfl hT
      have hcnt : ((CStep.ins now ch) :: rest).countP CStep.isIns =
          rest.countP CStep.isIns + 1 := by
        simp [List.countP_cons, CStep.isIns]
      rw [hcnt]
      have hrun : (runSched ts db (CStep.ins now ch :: rest)).2 =
          true :: (runSched ts ({ db with thread_mappings :=
            db.thread_mappings ++ [⟨ts, SENTINEL, ch, now⟩] }) rest).2 := by
        simp [runSched, runStep, hins]
      rw [hrun]
      simp [List.count_cons, hblocked]

/-- Claim C1: for a thread key with no existing row, among N ≥ 2 concurrent
`claim_thread` invocations — modelled as an arbitrary interleaving `sched` of
the callers' atomic stale-DELETE and placeholder-INSERT statements, all
executed within one 30-second staleness window — exactly one invocation's
INSERT returns `true` and the other N − 1 return `false`. -/
theorem claim_concurrent_exactly_one (db : DB) (ts : String) (sched : List CStep)
    (T N : Nat) (h0 : hasThread db.thread_mappings ts = false)
    (htime : ∀ st ∈ sched, T ≤ st.time ∧ st.time ≤ T + STALE_SECONDS)
    (hN : sched.countP CStep.isIns = N) (hN2 : 2 ≤ N) :
    (runSched ts db sched).2.count true = 1 ∧
    (runSched ts db sched).2.count false = N - 1 := by
  have hrow : tsRows db ts = [] := by
    unfold tsRows
    exact List.filter_eq_nil_iff.mpr
      (fun a ha => by simp [hasThread_false_iff.mp h0 a ha])
  have hopen := runSched_open T ts sched db htime hrow
  rw [hN] at hopen
  have hne : ¬ N = 0 := by omega
  rw [if_neg hne] at hopen
  have hlen := runSched_length ts sched db
  rw [hN] at hlen
  have hcf := count_false_add_count_true (runSched ts db sched).2
  exact ⟨hopen, by omega⟩

/-- Witness for C1: two callers' statements interleaved
DELETE₁, INSERT₁, DELETE₂, INSERT₂ at instant 100 on an empty store. -/
theorem claim_concurrent_exactly_one_witness :
    (runSched "T1" DB.empty
      [.del 100, .ins 100 "c1", .del 100, .ins 100 "c2"]).2.count true = 1 ∧
    (runSched "T1" DB.empty
      [.del 100, .ins 100 "c1", .del 100, .ins 100 "c2"]).2.count false = 2 - 1 :=
  claim_concurrent_exactly_one DB.empty "T1"
    [.del 100, .ins 100 "c1", .del 100, .ins 100 "c2"] 100 2
    (by decide) (by decide) (by decide) (by decide)

/-- Claim C2: starting from the freshly initialised store, after any sequence
of `claim_thread` / `update_ticket_mapping` / `store_mapping` /
`cleanup_old_mappings` operations, at most one `thread_mappings` row exists per
`thread_ts`; moreover a COMMITTED row (`ticket_id ≠ -1`) is never replaced or
overwritten by any operation — it survives identically unless the operation is
a retention cleanup whose cutoff lies after the row's `created_at`. -/
theorem at_most_one_row_and_committed_immutable :
    (∀ (ops : List Op) (ts : String),
      ((applyOps DB.empty ops).thread_mappings.filter
        (fun r => r.thread_ts == ts)).length ≤ 1) ∧
    (∀ (db : DB) (op : Op) (r : Row), r ∈ db.thread_mappings → r.ticket_id ≠ SENTINEL →
      r ∈ (applyOp db op).thread_mappings ∨
        ∃ c, op = Op.cleanup c ∧ r.created_at < c) := by
  constructor
  · intro ops ts
    exact length_filter_key_le_one
      (uniqueKeys_applyOps DB.empty List.Pairwise.nil ops) ts
  · intro db op r hr hc
    exact committed_row_preserved db op r hr hc

/-- Witness for C2: a COMMITTED row survives an `update_ticket_mapping` aimed
at its own key. -/
theorem at_most_one_row_and_committed_immutable_witness :
    (⟨"T", 7, "C", 5⟩ : Row) ∈
      (applyOp ⟨[⟨"T", 7, "C", 5⟩], []⟩ (Op.update "T" 9)).thread_mappings := by
  rcases at_most_one_row_and_committed_immutable.2 ⟨[⟨"T", 7, "C", 5⟩], []⟩
      (Op.update "T" 9) ⟨"T", 7, "C", 5⟩ (by decide) (by decide) with h | ⟨c, hc, _⟩
  · exact h
  · cases hc

/-- Claim C3: for a key holding a PENDING row, a `claim_thread` call whose age
`now - created_at` is below the 30-second staleness threshold returns `false`
and leaves the database unchanged; a call whose age exceeds the threshold
deletes the stale row, returns `true`, and installs a fresh PENDING row
owned by that caller. -/
theorem pending_blocks_fresh_reclaims_stale (db : DB) (now : Nat) (ts ch : String)
    (r : Row) (hu : UniqueKeys db.thread_mappings) (hr : r ∈ db.thread_mappings)
    (hk : r.thread_ts = ts) (hp : r.ticket_id = SENTINEL) :
    (now - r.created_at < STALE_SECONDS → claim_thread db now ts ch = (db, false)) ∧
    (STALE_SECONDS < now - r.created_at →
      (claim_thread db now ts ch).2 = true ∧
      r ∉ (claim_thread db now ts ch).1.thread_mappings ∧
      (claim_thread db now ts ch).1.thread_mappings.find? (fun x => x.thread_ts == ts) =
        some ⟨ts, SENTINEL, ch, now⟩) := by
  refine ⟨fun hage => claim_fresh_blocks db now ts ch r hu hr hk hp hage, fun hstale => ?_⟩
  have h := claim_stale_reclaims db now ts ch r hu hr hk hp hstale
  exact ⟨by rw [h.1], h.2.1, h.2.2⟩

/-- Witness for C3: a 20-second-old PENDING row blocks a new claim. -/
theorem pending_blocks_fresh_reclaims_stale_witness :
    claim_thread ⟨[⟨"T1", -1, "C", 0⟩], []⟩ 20 "T1" "C2" =
      (⟨[⟨"T1", -1, "C", 0⟩], []⟩, false) :=
  (pending_blocks_fresh_reclaims_stale ⟨[⟨"T1", -1, "C", 0⟩], []⟩ 20 "T1" "C2"
    ⟨"T1", -1, "C", 0⟩ (by simp [UniqueKeys]) (by decide) rfl rfl).1 (by decide)

/-- Claim C4 counterexample: after claiming "T1", a first
`update_ticket_mapping "T1" (-1)` — committing the sentinel value itself — is
reported as success, and a SECOND commit for the same key also returns `true`
and installs 5, contradicting "a second Commit call for the same key returns
false and does not change the value set by the first". -/
theorem commit_sentinel_second_commit_succeeds :
    (update_ticket_mapping (claim_thread DB.empty 0 "T1" "C1").1 "T1" (-1)).2 = true ∧
    (update_ticket_mapping
      (update_ticket_mapping (claim_thread DB.empty 0 "T1" "C1").1 "T1" (-1)).1
      "T1" 5).2 = true ∧
    get_ticket_id
      (update_ticket_mapping
        (update_ticket_mapping (claim_thread DB.empty 0 "T1" "C1").1 "T1" (-1)).1
        "T1" 5).1 "T1" = some 5 := by
  decide

/-- Claim C4 (amended): `update_ticket_mapping` reports success only while the
row for the key is PENDING; on an absent or COMMITTED row it returns `false`
and leaves the database unchanged; and when a first commit writes a
non-sentinel value, a second commit for the same key returns `false` and
changes nothing. (Unamended the last part is false: a first "commit" of the
sentinel -1 itself returns `true` yet leaves the row PENDING, so a second
commit still succeeds.) -/
theorem commit_only_pending (db : DB) (ts : String) (tid : Int) (r : Row)
    (hu : UniqueKeys db.thread_mappings) :
    (hasThread db.thread_mappings ts = false →
      update_ticket_mapping db ts tid = (db, false)) ∧
    (r ∈ db.thread_mappings → r.thread_ts = ts → r.ticket_id ≠ SENTINEL →
      update_ticket_mapping db ts tid = (db, false)) ∧
    (r ∈ db.thread_mappings → r.thread_ts = ts → r.ticket_id = SENTINEL →
      tid ≠ SENTINEL →
      (update_ticket_mapping db ts tid).2 = true ∧
      get_ticket_id (update_ticket_mapping db ts tid).1 ts = some tid ∧
      ∀ tid2, update_ticket_mapping (update_ticket_mapping db ts tid).1 ts tid2 =
        ((update_ticket_mapping db ts tid).1, false)) := by
  refine ⟨?_, ?_, ?_⟩
  · intro h
    apply update_noop
    intro x hx
    simp [pendingMatch, hasThread_false_iff.mp h x hx]
  · intro hr hk hc
    apply update_noop
    intro x hx
    by_cases hxk : x.thread_ts = ts
    · have hxr : r = x := mem_key_eq hu hr hx (hk.trans hxk.symm)
      subst hxr
      simp [pendingMatch, hc]
    · simp [pendingMatch, hxk]
  · intro hr hk hp htid
    rcases update_pending db ts tid r hu hr hk hp with ⟨hflag, _, hget⟩
    refine ⟨hflag, hget, ?_⟩
    intro tid2
    apply update_noop
    intro x hx
    rcases List.mem_map.mp hx with ⟨y, hy, hxy⟩
    by_cases hyk : y.thread_ts = ts
    · have hyr : r = y := mem_key_eq hu hr hy (hk.trans hyk.symm)
      subst hyr
      rw [← hxy]
      simp [updateRow, pendingMatch, hk, hp, htid]
    · rw [← hxy]
      simp [updateRow, pendingMatch, hyk]

/-- Witness for amended C4: committing 42 into a PENDING row succeeds. -/
theorem commit_only_pending_witness :
    (update_ticket_mapping ⟨[⟨"T1", -1, "C", 0⟩], []⟩ "T1" 42).2 = true :=
  ((commit_only_pending ⟨[⟨"T1", -1, "C", 0⟩], []⟩ "T1" 42 ⟨"T1", -1, "C", 0⟩
      (by simp [UniqueKeys])).2.2 (by decide) rfl rfl (by decide)).1

/-- Claim C5 counterexample: with a fresh PENDING row for "T1" in place, a
`claim_thread` invocation whose pooled store operation raises (fault) and an
invocation that genuinely loses the race produce identical results — the
backend failure is not surfaced as anything distinguishable from "claim lost
the race". -/
theorem fault_indistinguishable_from_lost_race :
    claim_thread_try (claim_thread DB.empty 100 "T1" "C1").1 100 "T1" "C2" true =
      claim_thread_try (claim_thread DB.empty 100 "T1" "C1").1 100 "T1" "C2" false := by
  decide

/-- Claim C5 (amended): when the pooled store operation inside `claim_thread`
raises, the `except` handler logs and returns plain `false` with the state
unchanged — the same return value as losing the claim race, so the caller
cannot distinguish transient backend failure from a lost claim by the
return value. -/
theorem fault_returns_false (db : DB) (now : Nat) (ts ch : String) :
    claim_thread_try db now ts ch true = (db, false) ∧
    ((claim_thread db now ts ch).2 = false →
      (claim_thread_try db now ts ch true).2 = (claim_thread_try db now ts ch false).2) := by
  refine ⟨rfl, ?_⟩
  intro h
  simp [claim_thread_try, h]

/-- Witness for amended C5, at a store whose "T1" row is already claimed. -/
theorem fault_returns_false_witness :
    (claim_thread_try (claim_thread DB.empty 100 "T1" "C1").1 100 "T1" "C2" true).2 =
      (claim_thread_try (claim_thread DB.empty 100 "T1" "C1").1 100 "T1" "C2" false).2 :=
  (fault_returns_false (claim_thread DB.empty 100 "T1" "C1").1 100 "T1" "C2").2 (by decide)

/-- Claim C9: on a PENDING row, committing the sentinel value itself
(`update_ticket_mapping ts (-1)`) returns `true` while changing nothing: the
database is unchanged, `get_ticket_id` still returns the sentinel, and the row
remains reclaimable by a later stale `claim_thread`. -/
theorem commit_sentinel_keeps_pending (db : DB) (ts ch : String) (r : Row) (now : Nat)
    (hu : UniqueKeys db.thread_mappings) (hr : r ∈ db.thread_mappings)
    (hk : r.thread_ts = ts) (hp : r.ticket_id = SENTINEL) :
    update_ticket_mapping db ts SENTINEL = (db, true) ∧
    get_ticket_id db ts = some SENTINEL ∧
    (STALE_SECONDS < now - r.created_at → (claim_thread db now ts ch).2 = true) := by
  refine ⟨?_, ?_, ?_⟩
  · have hid : ∀ x ∈ db.thread_mappings, updateRow ts SENTINEL x = x := by
      intro x _
      unfold updateRow
      by_cases hx : pendingMatch ts x = true
      · rcases x with ⟨a, b, c, d⟩
        have hticket : b = SENTINEL := by
          simp [pendingMatch] at hx
          exact hx.2
        simp [hx, hticket]
      · simp [hx]
    have hmap : db.thread_mappings.map (updateRow ts SENTINEL) = db.thread_mappings :=
      map_id_of_mem hid
    have hflag : decide (0 < db.thread_mappings.countP (pendingMatch ts)) = true := by
      simp only [decide_eq_true_eq]
      exact List.countP_pos_iff.mpr ⟨r, hr, by simp [pendingMatch, hk, hp]⟩
    unfold update_ticket_mapping
    rw [hmap, hflag]
  · unfold get_ticket_id
    rw [find?_key_of_mem hu hr hk]
    simp [hp]
  · intro hstale
    rw [(claim_stale_reclaims db now ts ch r hu hr hk hp hstale).1]

/-- Witness for C9: committing the sentinel into a PENDING "T1" row reports
success and leaves the store untouched. -/
theorem commit_sentinel_keeps_pending_witness :
    update_ticket_mapping ⟨[⟨"T1", -1, "C", 0⟩], []⟩ "T1" SENTINEL =
      (⟨[⟨"T1", -1, "C", 0⟩], []⟩, true) :=
  (commit_sentinel_keeps_pending ⟨[⟨"T1", -1, "C", 0⟩], []⟩ "T1" "C2"
    ⟨"T1", -1, "C", 0⟩ 100 (by simp [UniqueKeys]) (by decide) rfl rfl).1

/-- Claim C6 counterexample: with a pre-existing mapping of ticket 42 to thread
"X" (inserted through `store_mapping`), `claim_thread "T1"` returns `true` and
`update_ticket_mapping "T1" 42` returns `true`, yet `get_thread_info 42`
returns the OLD pair ("X", "CX") rather than ("T1", "C1"): `ticket_id` is not
unique in the table and reverse lookup answers with the first matching row. -/
theorem reverse_lookup_returns_earlier_row :
    (claim_thread (store_mapping DB.empty 0 "X" 42 "CX").1 0 "T1" "C1").2 = true ∧
    (update_ticket_mapping
      (claim_thread (store_mapping DB.empty 0 "X" 42 "CX").1 0 "T1" "C1").1
      "T1" 42).2 = true ∧
    get_thread_info
      (update_ticket_mapping
        (claim_thread (store_mapping DB.empty 0 "X" 42 "CX").1 0 "T1" "C1").1
        "T1" 42).1 42 = some ("X", "CX") := by
  decide

/-- Claim C6 (amended): after `claim_thread ts ch` returns `true` and — with no
intervening operations — `update_ticket_mapping ts tid` is called, the commit
returns `true` and `get_ticket_id ts = some tid`; and provided no row of the
prior state already carried `ticket_id = tid`, `get_thread_info tid` returns
`(ts, ch)`. -/
theorem claim_commit_roundtrip (db : DB) (now : Nat) (ts ch : String) (tid : Int)
    (hclaim : (claim_thread db now ts ch).2 = true) :
    (update_ticket_mapping (claim_thread db now ts ch).1 ts tid).2 = true ∧
    get_ticket_id (update_ticket_mapping (claim_thread db now ts ch).1 ts tid).1 ts =
      some tid ∧
    ((∀ x ∈ db.thread_mappings, x.ticket_id ≠ tid) →
      get_thread_info (update_ticket_mapping (claim_thread db now ts ch).1 ts tid).1 tid =
        some (ts, ch)) := by
  by_cases hht : hasThread
      (db.thread_mappings.filter (fun x => !staleMatch ts now x)) ts = true
  · exfalso
    have hfalse : (claim_thread db now ts ch).2 = false := by
      unfold claim_thread claimDeleteStmt claimInsertStmt
      simp [hht]
    rw [hfalse] at hclaim
    cases hclaim
  · have hht2 : hasThread
        (db.thread_mappings.filter (fun x => !staleMatch ts now x)) ts = false :=
      Bool.eq_false_iff.mpr hht
    have hkeys := hasThread_false_iff.mp hht2
    have hdb1 : (claim_thread db now ts ch).1 =
        { db with thread_mappings :=
            db.thread_mappings.filter (fun x => !staleMatch ts now x) ++
              [⟨ts, SENTINEL, ch, now⟩] } := by
      unfold claim_thread claimDeleteStmt claimInsertStmt
      simp [hht2]
    rw [hdb1]
    have hmapF : (db.thread_mappings.filter (fun x => !staleMatch ts now x)).map
        (updateRow ts tid) =
        db.thread_mappings.filter (fun x => !staleMatch ts now x) :=
      map_id_of_mem (fun y hy => by simp [updateRow, pendingMatch, hkeys y hy])
    have hnew : updateRow ts tid ⟨ts, SENTINEL, ch, now⟩ = ⟨ts, tid, ch, now⟩ := by
      simp [updateRow, pendingMatch]
    have hup1 : (update_ticket_mapping
        ({ db with thread_mappings :=
            db.thread_mappings.filter (fun x => !staleMatch ts now x) ++
              [⟨ts, SENTINEL, ch, now⟩] }) ts tid).1.thread_mappings =
        db.thread_mappings.filter (fun x => !staleMatch ts now x) ++
          [⟨ts, tid, ch, now⟩] := by
      show (db.thread_mappings.filter (fun x => !staleMatch ts now x) ++
          [(⟨ts, SENTINEL, ch, now⟩ : Row)]).map (updateRow ts tid) = _
      rw [List.map_append, hmapF]
      simp [hnew]
    have hup2 : (update_ticket_mapping
        ({ db with thread_mappings :=
            db.thread_mappings.filter (fun x => !staleMatch ts now x) ++
              [⟨ts, SENTINEL, ch, now⟩] }) ts tid).2 = true := by
      show decide (0 < (db.thread_mappings.filter (fun x => !staleMatch ts now x) ++
          [(⟨ts, SENTINEL, ch, now⟩ : Row)]).countP (pendingMatch ts)) = true
      simp only [decide_eq_true_eq]
      exact List.countP_pos_iff.mpr
        ⟨⟨ts, SENTINEL, ch, now⟩,
          List.mem_append_right _ (List.mem_singleton_self _), by simp [pendingMatch]⟩
    refine ⟨hup2, ?_, ?_⟩
    · unfold get_ticket_id
      rw [hup1]
      rw [find?_append_none (fun y hy => by simp [hkeys y hy])]
      rw [List.find?_cons_of_pos _ (by simp)]
      rfl
    · intro hfresh
      unfold get_thread_info
      rw [hup1]
      have hnotid : ∀ y ∈ db.thread_mappings.filter (fun x => !staleMatch ts now x),
          (y.ticket_id == tid) = false := by
        intro y hy
        have hmem : y ∈ db.thread_mappings := (List.mem_filter.mp hy).1
        simp [hfresh y hmem]
      rw [find?_append_none hnotid]
      rw [List.find?_cons_of_pos _ (by simp)]
      rfl

/-- Witness for amended C6: on an empty store, claim "T1" then commit 42;
both lookups answer as specified. -/
theorem claim_commit_roundtrip_witness :
    (update_ticket_mapping (claim_thread DB.empty 0 "T1" "C1").1 "T1" 42).2 = true ∧
    get_ticket_id (update_ticket_mapping
      (claim_thread DB.empty 0 "T1" "C1").1 "T1" 42).1 "T1" = some 42 ∧
    get_thread_info (update_ticket_mapping
      (claim_thread DB.empty 0 "T1" "C1").1 "T1" 42).1 42 = some ("T1", "C1") :=
  ⟨(claim_commit_roundtrip DB.empty 0 "T1" "C1" 42 (by decide)).1,
   (claim_commit_roundtrip DB.empty 0 "T1" "C1" 42 (by decide)).2.1,
   (claim_commit_roundtrip DB.empty 0 "T1" "C1" 42 (by decide)).2.2 (by decide)⟩

/-- Claim C7: marking a not-yet-processed event twice reports success both
times, `is_event_processed` answers `true` after either call, the second call
leaves the ledger unchanged, and exactly one `processed_events` row exists for
the event. -/
theorem mark_processed_idempotent (db : DB) (now1 now2 : Nat) (e : String)
    (hnew : is_event_processed db e = false) :
    (mark_event_processed db now1 e).2 = true ∧
    is_event_processed (mark_event_processed db now1 e).1 e = true ∧
    (mark_event_processed (mark_event_processed db now1 e).1 now2 e).2 = true ∧
    (mark_event_processed (mark_event_processed db now1 e).1 now2 e).1 =
      (mark_event_processed db now1 e).1 ∧
    ((mark_event_processed db now1 e).1).processed_events.countP
      (fun x => x.event_id == e) = 1 := by
  have hhe : hasEvent db.processed_events e = false := hnew
  have h1 : mark_event_processed db now1 e =
      ({ db with processed_events := db.processed_events ++ [⟨e, now1⟩] }, true) := by
    unfold mark_event_processed
    rw [hhe]
    simp
  have hproc : hasEvent (db.processed_events ++ [⟨e, now1⟩]) e = true :=
    List.any_of_mem (List.mem_append_right _ (List.mem_singleton_self _)) (by simp)
  have h2 : mark_event_processed
      ({ db with processed_events := db.processed_events ++ [⟨e, now1⟩] }) now2 e =
      ({ db with processed_events := db.processed_events ++ [⟨e, now1⟩] }, true) := by
    unfold mark_event_processed
    rw [show hasEvent ({ db with processed_events :=
        db.processed_events ++ [⟨e, now1⟩] } : DB).processed_events e = true from hproc]
    simp
  have hcount : (db.processed_events ++ [(⟨e, now1⟩ : EventRow)]).countP
      (fun x => x.event_id == e) = 1 := by
    rw [List.countP_append]
    have hz : db.processed_events.countP (fun x => x.event_id == e) = 0 :=
      List.countP_eq_zero.mpr (fun a ha => by
        have := List.any_eq_false.mp hhe a ha
        simpa using this)
    rw [hz]
    simp
  rw [h1]
  exact ⟨rfl, hproc, by rw [h2], by rw [h2], hcount⟩

/-- Witness for C7 on an empty ledger with event "E". -/
theorem mark_processed_idempotent_witness :
    (mark_event_processed DB.empty 1 "E").2 = true ∧
    is_event_processed (mark_event_processed DB.empty 1 "E").1 "E" = true ∧
    (mark_event_processed (mark_event_processed DB.empty 1 "E").1 2 "E").2 = true ∧
    (mark_event_processed (mark_event_processed DB.empty 1 "E").1 2 "E").1 =
      (mark_event_processed DB.empty 1 "E").1 ∧
    ((mark_event_processed DB.empty 1 "E").1).processed_events.countP
      (fun x => x.event_id == "E") = 1 :=
  mark_processed_idempotent DB.empty 1 2 "E" (by decide)

/-- Claim C8 counterexample: with no thread mappings and one old
`processed_events` row, `cleanup_old_mappings` deletes that row yet returns 0:
the returned value counts only deleted `thread_mappings` rows, not all rows
removed. -/
theorem cleanup_count_omits_event_rows :
    (cleanup_old_mappings ⟨[], [⟨"E", 0⟩]⟩ 10).2 = 0 ∧
    (cleanup_old_mappings ⟨[], [⟨"E", 0⟩]⟩ 10).1.processed_events = [] := by
  decide

/-- Claim C8 (amended): `cleanup_old_mappings` keeps exactly the rows whose
timestamp is at or after the cutoff in both tables, deletes exactly those
strictly before it, and returns the exact number of `thread_mappings` rows
removed (deleted `processed_events` rows are not included in the count). -/
theorem cleanup_filters_and_counts (db : DB) (cutoff : Nat) :
    (∀ r : Row, r ∈ (cleanup_old_mappings db cutoff).1.thread_mappings ↔
      r ∈ db.thread_mappings ∧ ¬ r.created_at < cutoff) ∧
    (∀ x : EventRow, x ∈ (cleanup_old_mappings db cutoff).1.processed_events ↔
      x ∈ db.processed_events ∧ ¬ x.processed_at < cutoff) ∧
    (cleanup_old_mappings db cutoff).2 +
      (cleanup_old_mappings db cutoff).1.thread_mappings.length =
      db.thread_mappings.length := by
  refine ⟨?_, ?_, ?_⟩
  · intro r
    show r ∈ db.thread_mappings.filter (fun x => !decide (x.created_at < cutoff)) ↔ _
    simp [List.mem_filter]
  · intro x
    show x ∈ db.processed_events.filter (fun y => !decide (y.processed_at < cutoff)) ↔ _
    simp [List.mem_filter]
  · show db.thread_mappings.length -
        (db.thread_mappings.filter (fun x => !decide (x.created_at < cutoff))).length +
        (db.thread_mappings.filter (fun x => !decide (x.created_at < cutoff))).length =
        db.thread_mappings.length
    have hle := List.length_filter_le
      (fun x : Row => !decide (x.created_at < cutoff)) db.thread_mappings
    omega

/-- Witness for amended C8: one old and one new mapping, cutoff 10. -/
theorem cleanup_filters_and_counts_witness :
    (cleanup_old_mappings ⟨[⟨"T", 7, "C", 0⟩, ⟨"U", 8, "C", 20⟩], []⟩ 10).2 +
      (cleanup_old_mappings
        ⟨[⟨"T", 7, "C", 0⟩, ⟨"U", 8, "C", 20⟩], []⟩ 10).1.thread_mappings.length =
      ([⟨"T", 7, "C", 0⟩, ⟨"U", 8, "C", 20⟩] : List Row).length :=
  (cleanup_filters_and_counts ⟨[⟨"T", 7, "C", 0⟩, ⟨"U", 8, "C", 20⟩], []⟩ 10).2.2

/-- Claim C10: `store_mapping` inserts a mapping directly, with no prior claim:
when no row exists for the key it appends a row carrying the given ticket id
and returns `true`; when any row (PENDING or COMMITTED) exists for the key it
returns `false` and leaves both tables completely unchanged. -/
theorem store_mapping_first_wins (db : DB) (now : Nat) (ts : String) (tid : Int)
    (ch : String) :
    (hasThread db.thread_mappings ts = false →
      (store_mapping db now ts tid ch).2 = true ∧
      get_ticket_id (store_mapping db now ts tid ch).1 ts = some tid ∧
      (store_mapping db now ts tid ch).1.thread_mappings =
        db.thread_mappings ++ [⟨ts, tid, ch, now⟩] ∧
      (store_mapping db now ts tid ch).1.processed_events = db.processed_events) ∧
    (hasThread db.thread_mappings ts = true →
      store_mapping db now ts tid ch = (db, false)) := by
  constructor
  · intro h
    have hs : store_mapping db now ts tid ch =
        ({ db with thread_mappings := db.thread_mappings ++ [⟨ts, tid, ch, now⟩] }, true) := by
      unfold store_mapping
      rw [h]
      simp
    refine ⟨by rw [hs], ?_, by rw [hs], by rw [hs]⟩
    rw [hs]
    unfold get_ticket_id
    show ((db.thread_mappings ++ [(⟨ts, tid, ch, now⟩ : Row)]).find?
        (fun x => x.thread_ts == ts)).map (fun x => x.ticket_id) = _
    rw [find?_append_none (fun x hx => by simp [hasThread_false_iff.mp h x hx])]
    rw [List.find?_cons_of_pos _ (by simp)]
    rfl
  · intro h
    unfold store_mapping
    rw [h]
    simp

/-- Witness for C10 on an empty store. -/
theorem store_mapping_first_wins_witness :
    (store_mapping DB.empty 0 "T1" 42 "C1").2 = true :=
  ((store_mapping_first_wins DB.empty 0 "T1" 42 "C1").1 (by decide)).1

end ThreadStore
